import Mathlib

/-!
Verification development for the `transscreen` capture/encode pipeline.

The definitions below are a shallow embedding of the Rust sources:

* `src/utils/src/contiguous.rs` — `RingBuffer`, `GrowableBuffer`,
  `WriteDataError`, `ItemData`;
* `src/screen_cap/src/record/encoded_buffer.rs` — `EncodedBuffer`,
  `Metadata`;
* `src/screen_cap/src/record/mod.rs` — `RecordWorker::update`,
  `EncodeStatus`, `RecordError`;
* `src/screen_cap/src/frame.rs` — `FrameError` and its conversion from
  `io::Error`.

Bytes are modelled as `Nat`, `Box<[u8]>`/`Vec<u8>` as `List Nat`, and the
`VecDeque` of items as a `List` whose head is the queue front.  Functions
that mutate `&mut self` and return `Result<(), E>` are modelled as pure
functions returning the updated state paired with `Option E`; an early
`return Err(..)` before any mutation therefore returns the input state
unchanged, exactly as the Rust control flow does.
-/

namespace Transscreen

/-- Mirror of `WriteDataError` in `src/utils/src/contiguous.rs`. -/
inductive WriteDataError where
  | DataTooLarge
deriving DecidableEq, Repr

/-- Mirror of `ItemData<M>`: an item's byte range in the arena plus its
metadata. -/
structure ItemData (M : Type) where
  start_index : Nat
  length : Nat
  metadata : M
deriving Repr, DecidableEq

/-- Mirror of `RingBuffer<M>`: a bounded byte arena plus a FIFO queue of
item records.  `buf` always has the capacity as its length; the `VecDeque`
is a `List` with the queue front at the head. -/
structure RingBuffer (M : Type) where
  buf : List Nat
  items : List (ItemData M)
  write_head_position : Nat
  id_offset : Nat
deriving Repr

namespace RingBuffer

/-- Mirror of `RingBuffer::new(cap)`: a zeroed arena of `cap` bytes and an
empty item queue. -/
def new (M : Type) (cap : Nat) : RingBuffer M :=
  { buf := List.replicate cap 0
    items := []
    write_head_position := 0
    id_offset := 0 }

end RingBuffer

/-- Mirror of the invalidation loop in `RingBuffer::write` (the
`for _ in 0..self.items.len()` loop): pop front items while they
intersect the just-written byte range `[s, e)`, stopping at the first
front item that does not intersect.  Returns the remaining queue and the
number of popped items (each pop increments `id_offset` by one in the
caller). -/
def evictOverwritten {M : Type} (s e : Nat) : List (ItemData M) → List (ItemData M) × Nat
  | [] => ([], 0)
  | it :: rest =>
    if it.start_index < e ∧ it.start_index + it.length > s then
      let r := evictOverwritten s e rest
      (r.1, r.2 + 1)
    else
      (it :: rest, 0)

namespace RingBuffer

/-- Mirror of `RingBuffer::write`.  The Rust method mutates `&mut self`
and returns `Result<(), WriteDataError>`; here the updated state is
returned together with `Option WriteDataError`.  The `DataTooLarge`
early return happens before any mutation, so that branch returns the
input state itself. -/
def write {M : Type} (rb : RingBuffer M) (data : List Nat) (m : M) :
    RingBuffer M × Option WriteDataError :=
  if data.length > rb.buf.length then
    (rb, some WriteDataError.DataTooLarge)
  else
    -- reset the write head if there isn't enough space in front of it
    let head0 :=
      if rb.buf.length - rb.write_head_position < data.length then 0
      else rb.write_head_position
    let s := head0
    let e := s + data.length
    -- write the data at head position
    let buf2 := rb.buf.take s ++ data ++ rb.buf.drop e
    -- invalidate any overwritten items
    let ev := evictOverwritten s e rb.items
    ({ buf := buf2
       items := ev.1 ++ [⟨s, data.length, m⟩]
       write_head_position := e
       id_offset := rb.id_offset + ev.2 }, none)

/-- Mirror of `RingBuffer::get`: `None` outside the live id window,
otherwise the item's byte slice and metadata. -/
def get {M : Type} (rb : RingBuffer M) (id : Nat) : Option (List Nat × M) :=
  let endId := rb.id_offset + rb.items.length
  if id < rb.id_offset ∨ id ≥ endId then none
  else
    (rb.items[id - rb.id_offset]?).map fun it =>
      ((rb.buf.drop it.start_index).take it.length, it.metadata)

/-- Mirror of `RingBuffer::id_bounds`. -/
def id_bounds {M : Type} (rb : RingBuffer M) : Nat × Nat :=
  (rb.id_offset, rb.id_offset + rb.items.length)

/-- Mirror of `RingBuffer::len`. -/
def len {M : Type} (rb : RingBuffer M) : Nat :=
  rb.items.length

end RingBuffer

/-- Apply a sequence of `write` calls in order, threading the state.  A
failed write leaves the state unchanged (as in the Rust code, where the
error branch returns before mutating), so a run over an arbitrary list
covers every sequence of successful writes. -/
def applyWrites {M : Type} (rb : RingBuffer M) : List (List Nat × M) → RingBuffer M
  | [] => rb
  | (d, m) :: rest => applyWrites (rb.write d m).1 rest

/-- The ids assigned by the successful writes of a sequence: each
successful `write` appends its item at the back of the queue, so the new
item's id is `id_bounds().max - 1` of the post-write state.  Failed
writes assign no id. -/
def writeSeqIds {M : Type} (rb : RingBuffer M) : List (List Nat × M) → List Nat
  | [] => []
  | (d, m) :: rest =>
    let r := rb.write d m
    match r.2 with
    | none => (r.1.id_bounds.2 - 1) :: writeSeqIds r.1 rest
    | some _ => writeSeqIds r.1 rest

/-- Mirror of `GrowableBuffer<M>` in `src/utils/src/contiguous.rs`: an
unbounded staging arena with the same item model. -/
structure GrowableBuffer (M : Type) where
  buf : List Nat
  items : List (ItemData M)
deriving Repr, DecidableEq

namespace GrowableBuffer

/-- Mirror of `GrowableBuffer::new`. -/
def new (M : Type) : GrowableBuffer M :=
  { buf := [], items := [] }

/-- Mirror of `GrowableBuffer::write`: append the bytes at the end of the
staging arena and record the item. -/
def write {M : Type} (gb : GrowableBuffer M) (data : List Nat) (m : M) :
    GrowableBuffer M :=
  { buf := gb.buf ++ data
    items := gb.items ++ [⟨gb.buf.length, data.length, m⟩] }

/-- Mirror of `GrowableBuffer::len`. -/
def len {M : Type} (gb : GrowableBuffer M) : Nat :=
  gb.items.length

end GrowableBuffer

/-- The loop body of `GrowableBuffer::dump_into_ring_buffer`: write each
staged item's byte slice into the ring in order, stopping at the first
failing write. -/
def dumpLoop {M : Type} (buf : List Nat) :
    List (ItemData M) → RingBuffer M → RingBuffer M × Option WriteDataError
  | [], rb => (rb, none)
  | it :: rest, rb =>
    let r := rb.write ((buf.drop it.start_index).take it.length) it.metadata
    match r.2 with
    | none => dumpLoop buf rest r.1
    | some e => (r.1, some e)

namespace GrowableBuffer

/-- Mirror of `GrowableBuffer::dump_into_ring_buffer`.  On success the
stage is fully cleared (`drain(..)` consumed every item and
`self.buf.clear()` ran).  On an early `?` return the `Drain` guard is
dropped, which still removes every staged item, but `buf.clear()` is
skipped — hence the error branch keeps `buf` and clears only `items`. -/
def dump_into_ring_buffer {M : Type} (gb : GrowableBuffer M) (rb : RingBuffer M) :
    GrowableBuffer M × RingBuffer M × Option WriteDataError :=
  let r := dumpLoop gb.buf gb.items rb
  match r.2 with
  | none => ({ buf := [], items := [] }, r.1, none)
  | some e => ({ buf := gb.buf, items := [] }, r.1, some e)

end GrowableBuffer

/-- Mirror of `Metadata` in `src/screen_cap/src/record/encoded_buffer.rs`. -/
structure Metadata where
  is_key : Bool
deriving Repr, DecidableEq

/-- Mirror of `EncodedBuffer`: the shared ring buffer (here inlined, the
`Arc<RwLock<..>>` being a concurrency wrapper with no data content) plus
the private staging buffer. -/
structure EncodedBuffer where
  ring_buf : RingBuffer Metadata
  write_buf : GrowableBuffer Metadata
deriving Repr

namespace EncodedBuffer

/-- Mirror of `EncodedBuffer::new`. -/
def new (capacity : Nat) : EncodedBuffer :=
  { ring_buf := RingBuffer.new Metadata capacity
    write_buf := GrowableBuffer.new Metadata }

/-- Mirror of `EncodedBuffer::write`: stage only. -/
def write (b : EncodedBuffer) (data : List Nat) (m : Metadata) : EncodedBuffer :=
  { b with write_buf := b.write_buf.write data m }

/-- Mirror of `EncodedBuffer::flush`: dump the stage into the ring. -/
def flush (b : EncodedBuffer) : EncodedBuffer × Option WriteDataError :=
  let r := b.write_buf.dump_into_ring_buffer b.ring_buf
  ({ ring_buf := r.2.1, write_buf := r.1 }, r.2.2)

/-- Mirror of `EncodedBuffer::write_flush`: flush any residual stage,
then write the chunk directly into the ring. -/
def write_flush (b : EncodedBuffer) (data : List Nat) (m : Metadata) :
    EncodedBuffer × Option WriteDataError :=
  let f := b.flush
  match f.2 with
  | some e => (f.1, some e)
  | none =>
    let w := f.1.ring_buf.write data m
    ({ f.1 with ring_buf := w.1 }, w.2)

/-- Mirror of `EncodedBuffer::write_buf_len`. -/
def write_buf_len (b : EncodedBuffer) : Nat :=
  b.write_buf.len

end EncodedBuffer

/-- Minimal model of `std::io::ErrorKind` as consumed by
`src/screen_cap/src/frame.rs`: only `WouldBlock` is distinguished. -/
inductive IoErrorKind where
  | WouldBlock
  | Other
deriving DecidableEq, Repr

/-- Mirror of `FrameError` in `src/screen_cap/src/frame.rs`. -/
inductive FrameError where
  | Skipped
  | Error (kind : IoErrorKind)
deriving DecidableEq, Repr

/-- Mirror of `impl From<io::Error> for FrameError`: `WouldBlock` becomes
`Skipped`, anything else is carried as `Error`. -/
def FrameError.ofIoErrorKind : IoErrorKind → FrameError
  | IoErrorKind.WouldBlock => FrameError.Skipped
  | k => FrameError.Error k

/-- Mirror of `EncodeStatus` in `src/screen_cap/src/record/mod.rs`. -/
inductive EncodeStatus where
  | Skipped
  | PreBuffered
  | Flushed
deriving DecidableEq, Repr

/-- Mirror of `RecordError` in `src/screen_cap/src/record/mod.rs`; the
payloads of the opaque `io::Error` and `x264::Error` are dropped. -/
inductive RecordError where
  | FrameIoError
  | EncodeError
  | WriteDataError (e : WriteDataError)
deriving DecidableEq, Repr

instance : DecidableEq (Except RecordError EncodeStatus) := fun a b =>
  match a, b with
  | Except.ok x, Except.ok y => decidable_of_iff (x = y) (by simp)
  | Except.error x, Except.error y => decidable_of_iff (x = y) (by simp)
  | Except.ok _, Except.error _ => isFalse (by simp)
  | Except.error _, Except.ok _ => isFalse (by simp)

/-- The per-iteration input of the encoder worker.  The capture facade
and the opaque encoder are external collaborators (spec §1): a
non-skipped successful iteration is modelled by the encoded chunk and
keyframe flag the encoder produced for that frame. -/
inductive CaptureOutcome where
  | skipped
  | frame (chunk : List Nat) (is_key : Bool)
  | ioError
deriving DecidableEq, Repr

/-- Mirror of the `RecordWorker` state in `src/screen_cap/src/record/mod.rs`
as far as `update` observes it: the encoded buffer and `buffered_frames`.
The capturer, encoder, frame geometry and clock are opaque externals;
`encoded_frames` counts the `self.encoder.encode(timestamp, image)` calls
(each of which computes a fresh presentation timestamp), so that "the
encoder is not invoked" is statable. -/
structure RecordWorker where
  data_buf : EncodedBuffer
  buffered_frames : Nat
  encoded_frames : Nat
deriving Repr

namespace RecordWorker

/-- A freshly constructed worker: empty encoded buffer of the given
capacity, nothing encoded yet. -/
def init (capacity buffered_frames : Nat) : RecordWorker :=
  { data_buf := EncodedBuffer.new capacity
    buffered_frames := buffered_frames
    encoded_frames := 0 }

/-- Mirror of `RecordWorker::update` (lines 31–84 of
`src/screen_cap/src/record/mod.rs`).  A `Skipped` frame read returns
immediately; an I/O error propagates; otherwise the chunk produced by
the (external) encoder is handed to the buffer according to
`buffered_frames`: `0` means flush-and-write-through (`Flushed`),
otherwise the chunk is staged and the stage is dumped only once its
length exceeds `buffered_frames`. -/
def update (st : RecordWorker) (o : CaptureOutcome) :
    Except RecordError EncodeStatus × RecordWorker :=
  match o with
  | CaptureOutcome.skipped => (Except.ok EncodeStatus.Skipped, st)
  | CaptureOutcome.ioError => (Except.error RecordError.FrameIoError, st)
  | CaptureOutcome.frame chunk key =>
    let st1 := { st with encoded_frames := st.encoded_frames + 1 }
    let md : Metadata := ⟨key⟩
    if st1.buffered_frames = 0 then
      let r := st1.data_buf.write_flush chunk md
      match r.2 with
      | none => (Except.ok EncodeStatus.Flushed, { st1 with data_buf := r.1 })
      | some e => (Except.error (RecordError.WriteDataError e), { st1 with data_buf := r.1 })
    else
      let b := st1.data_buf.write chunk md
      if st1.buffered_frames < b.write_buf_len then
        let r := b.flush
        match r.2 with
        | none => (Except.ok EncodeStatus.Flushed, { st1 with data_buf := r.1 })
        | some e => (Except.error (RecordError.WriteDataError e), { st1 with data_buf := r.1 })
      else (Except.ok EncodeStatus.PreBuffered, { st1 with data_buf := b })

end RecordWorker

/-- Run the worker over a list of per-iteration inputs, collecting the
statuses in order, as the threaded loop harness does (the loop keeps
calling `work()` regardless of individual results). -/
def runWorker (st : RecordWorker) : List CaptureOutcome →
    List (Except RecordError EncodeStatus) × RecordWorker
  | [] => ([], st)
  | o :: rest =>
    let r := st.update o
    let rr := runWorker r.2 rest
    (r.1 :: rr.1, rr.2)

/-- Stage length of the worker (the Rust `self.data_buf.write_buf_len()`). -/
def stageLen (st : RecordWorker) : Nat :=
  st.data_buf.write_buf.items.length

/-- An iteration input the spec scenarios allow: a skip, or an encoded
chunk that fits in a ring of capacity `c`; never a hard I/O error. -/
def validOutcome (c : Nat) : CaptureOutcome → Bool
  | CaptureOutcome.skipped => true
  | CaptureOutcome.frame chunk _ => decide (chunk.length ≤ c)
  | CaptureOutcome.ioError => false

/-- Invariant carried through encoder-worker runs with `buffered_frames
= k` on a ring of capacity `c`: every staged item fits in the ring and
the stage never holds more than `k` items. -/
def WorkerInv (c k : Nat) (st : RecordWorker) : Prop :=
  st.buffered_frames = k ∧
  st.data_buf.ring_buf.buf.length = c ∧
  (∀ it ∈ st.data_buf.write_buf.items, it.length ≤ c) ∧
  st.data_buf.write_buf.items.length ≤ k

/-- Total byte length of a list of staged writes. -/
def totalLen {M : Type} (ws : List (List Nat × M)) : Nat :=
  (ws.map fun w => w.1.length).sum

/-- Concatenation of the data of a list of staged writes. -/
def concatData {M : Type} (ws : List (List Nat × M)) : List Nat :=
  (ws.map fun w => w.1).flatten

/-- The item records of a list of writes laid out contiguously from
byte offset `off`. -/
def itemsFrom {M : Type} (off : Nat) : List (List Nat × M) → List (ItemData M)
  | [] => []
  | (d, m) :: rest => ⟨off, d.length, m⟩ :: itemsFrom (off + d.length) rest

/-- The ring-buffer state after writing `ws` in order into a fresh ring
of capacity `c` large enough to hold them all: the data packed from
offset 0, one item per write, no evictions. -/
def seqShape (M : Type) (c : Nat) (ws : List (List Nat × M)) : RingBuffer M :=
  { buf := concatData ws ++ List.replicate (c - totalLen ws) 0
    items := itemsFrom 0 ws
    write_head_position := totalLen ws
    id_offset := 0 }

/-- Sequentially `write` a list of chunks into a ring buffer, stopping
at the first error (the shape of `dump_into_ring_buffer`'s loop). -/
def ringWriteAllE {M : Type} (rb : RingBuffer M) :
    List (List Nat × M) → RingBuffer M × Option WriteDataError
  | [] => (rb, none)
  | (d, m) :: rest =>
    let r := rb.write d m
    match r.2 with
    | none => ringWriteAllE r.1 rest
    | some e => (r.1, some e)

/-- Stage a list of writes into a growable buffer in order. -/
def gbWriteAll {M : Type} (gb : GrowableBuffer M) :
    List (List Nat × M) → GrowableBuffer M
  | [] => gb
  | (d, m) :: rest => gbWriteAll (gb.write d m) rest

/-- The write sequence on which the eviction loop's early `break` leaves
two overlapping live items: capacity 20, chunk sizes 19, 1, 2, 19. -/
def c4Writes : List (List Nat × Unit) :=
  [(List.replicate 19 1, ()), ([7], ()), ([8, 9], ()), (List.replicate 19 2, ())]

/-- The four-frame input of the `buffered_frames = 2` scenario. -/
def c1Outcomes : List CaptureOutcome :=
  [CaptureOutcome.frame [1, 2, 3] true, CaptureOutcome.frame [4, 5, 6] false,
   CaptureOutcome.frame [7, 8, 9] false, CaptureOutcome.frame [10, 11, 12] false]

section RingBufferLemmas

variable {M : Type}

theorem evictOverwritten_length (s e : Nat) (l : List (ItemData M)) :
    (evictOverwritten s e l).1.length + (evictOverwritten s e l).2 = l.length := by
  induction l with
  | nil => simp [evictOverwritten]
  | cons it rest ih =>
    by_cases h : it.start_index < e ∧ it.start_index + it.length > s
    · have hstep : evictOverwritten s e (it :: rest)
          = ((evictOverwritten s e rest).1, (evictOverwritten s e rest).2 + 1) := by
        simp [evictOverwritten, if_pos h]
      rw [hstep]
      simp only [List.length_cons]
      omega
    · simp [evictOverwritten, if_neg h]

theorem write_err_iff (rb : RingBuffer M) (d : List Nat) (m : M) :
    (rb.write d m).2 = some WriteDataError.DataTooLarge ↔ rb.buf.length < d.length := by
  by_cases h : d.length > rb.buf.length
  · simp [RingBuffer.write, if_pos h]
    omega
  · simp [RingBuffer.write, if_neg h]
    omega

theorem write_ok_iff (rb : RingBuffer M) (d : List Nat) (m : M) :
    (rb.write d m).2 = none ↔ d.length ≤ rb.buf.length := by
  by_cases h : d.length > rb.buf.length
  · simp [RingBuffer.write, if_pos h]
    omega
  · simp [RingBuffer.write, if_neg h]
    omega

theorem write_err_unchanged (rb : RingBuffer M) (d : List Nat) (m : M)
    (h : (rb.write d m).2 ≠ none) : (rb.write d m).1 = rb := by
  by_cases hlt : d.length > rb.buf.length
  · simp [RingBuffer.write, if_pos hlt]
  · exact absurd (by simp [RingBuffer.write, if_neg hlt]) h

theorem write_ok_bounds (rb : RingBuffer M) (d : List Nat) (m : M)
    (h : (rb.write d m).2 = none) :
    (rb.write d m).1.id_bounds.2 = rb.id_bounds.2 + 1 ∧
      rb.id_bounds.1 ≤ (rb.write d m).1.id_bounds.1 := by
  have hle : ¬ d.length > rb.buf.length := by
    intro hgt
    simp [RingBuffer.write, if_pos hgt] at h
  have hlen := evictOverwritten_length
    (M := M)
    (if rb.buf.length - rb.write_head_position < d.length then 0
      else rb.write_head_position)
    ((if rb.buf.length - rb.write_head_position < d.length then 0
      else rb.write_head_position) + d.length) rb.items
  simp only [RingBuffer.write, if_neg hle, RingBuffer.id_bounds]
  constructor
  · simp only [List.length_append, List.length_cons, List.length_nil]
    omega
  · omega

/-- `get` succeeds exactly on the live id window; holds for every state. -/
theorem get_isSome_iff (rb : RingBuffer M) (id : Nat) :
    (rb.get id).isSome ↔ rb.id_bounds.1 ≤ id ∧ id < rb.id_bounds.2 := by
  unfold RingBuffer.get RingBuffer.id_bounds
  by_cases h : id < rb.id_offset ∨ id ≥ rb.id_offset + rb.items.length
  · simp only [if_pos h, Option.isSome_none]
    constructor
    · intro hc
      exact absurd hc (by simp)
    · intro hc
      omega
  · push_neg at h
    simp only [if_neg (by omega : ¬ (id < rb.id_offset ∨ id ≥ rb.id_offset + rb.items.length))]
    have hidx : id - rb.id_offset < rb.items.length := by omega
    rw [List.getElem?_eq_getElem hidx]
    simp only [Option.map_some', Option.isSome_some, true_iff]
    omega

end RingBufferLemmas

/-! ### Claim theorems (ring buffer basics) -/

/-- C2: `RingBuffer::write` returns `DataTooLarge` iff the chunk is
larger than the arena capacity, that is the only possible error, and on
that error the buffer — arena bytes, item queue, write head, and hence
`id_bounds()` — is exactly the state before the call: no partial write
occurs. -/
theorem ringBuffer_write_dataTooLarge_iff {M : Type} (rb : RingBuffer M)
    (d : List Nat) (m : M) :
    ((rb.write d m).2 = some WriteDataError.DataTooLarge ↔ rb.buf.length < d.length) ∧
    (rb.buf.length < d.length →
      (rb.write d m).1 = rb ∧
      (rb.write d m).1.buf = rb.buf ∧
      (rb.write d m).1.items = rb.items ∧
      (rb.write d m).1.write_head_position = rb.write_head_position ∧
      (rb.write d m).1.id_bounds = rb.id_bounds) := by
  refine ⟨write_err_iff rb d m, fun h => ?_⟩
  have hne : (rb.write d m).2 ≠ none := by
    rw [(write_err_iff rb d m).mpr h]
    simp
  have heq := write_err_unchanged rb d m hne
  exact ⟨heq, by rw [heq], by rw [heq], by rw [heq], by rw [heq]⟩

/-- Witness for C2 at a concrete input: writing 3 bytes into a capacity-2
ring errors with `DataTooLarge` and leaves the buffer untouched. -/
theorem ringBuffer_write_dataTooLarge_iff_witness :
    ((RingBuffer.new Unit 2).write [1, 2, 3] ()).2 = some WriteDataError.DataTooLarge ∧
    ((RingBuffer.new Unit 2).write [1, 2, 3] ()).1 = RingBuffer.new Unit 2 := by
  have h := ringBuffer_write_dataTooLarge_iff (RingBuffer.new Unit 2) [1, 2, 3] ()
  have hlt : (RingBuffer.new Unit 2).buf.length < ([1, 2, 3] : List Nat).length := by
    simp [RingBuffer.new]
  exact ⟨h.1.mpr hlt, (h.2 hlt).1⟩

/-- C3: after any sequence of writes from `RingBuffer::new c`,
`id_bounds() = (min, max)` has `min ≤ max`, `get id` is `Some` exactly
for `min ≤ id < max`, and in particular the fresh `RingBuffer::new 10`
has `get 0 = none` and `id_bounds = (0, 0)`. -/
theorem ringBuffer_get_id_bounds_characterization (M : Type) (c : Nat)
    (ws : List (List Nat × M)) :
    (applyWrites (RingBuffer.new M c) ws).id_bounds.1 ≤
        (applyWrites (RingBuffer.new M c) ws).id_bounds.2 ∧
    (∀ id : Nat,
      ((applyWrites (RingBuffer.new M c) ws).get id).isSome ↔
        (applyWrites (RingBuffer.new M c) ws).id_bounds.1 ≤ id ∧
          id < (applyWrites (RingBuffer.new M c) ws).id_bounds.2) ∧
    (RingBuffer.new M 10).get 0 = none ∧
    (RingBuffer.new M 10).id_bounds = (0, 0) := by
  refine ⟨Nat.le_add_right _ _, fun id => get_isSome_iff _ id, rfl, rfl⟩

section IdMonotone

variable {M : Type}

theorem id_offset_le_write (rb : RingBuffer M) (d : List Nat) (m : M) :
    rb.id_offset ≤ (rb.write d m).1.id_offset := by
  by_cases h : d.length > rb.buf.length
  · simp [RingBuffer.write, if_pos h]
  · simp only [RingBuffer.write, if_neg h]
    exact Nat.le_add_right _ _

theorem id_offset_le_applyWrites (ws : List (List Nat × M)) (rb : RingBuffer M) :
    rb.id_offset ≤ (applyWrites rb ws).id_offset := by
  induction ws generalizing rb with
  | nil => exact le_refl _
  | cons w rest ih =>
    obtain ⟨d, m⟩ := w
    exact le_trans (id_offset_le_write rb d m) (ih (rb.write d m).1)

end IdMonotone

/-- C10: a successful `RingBuffer::write` increases `id_bounds().max` by
exactly one and never decreases `id_bounds().min`; a failed write leaves
both bounds (indeed the whole buffer) unchanged; and `min` is
non-decreasing over any sequence of writes. -/
theorem ringBuffer_write_id_bounds_monotone {M : Type} (rb : RingBuffer M)
    (d : List Nat) (m : M) :
    ((rb.write d m).2 = none →
      (rb.write d m).1.id_bounds.2 = rb.id_bounds.2 + 1 ∧
        rb.id_bounds.1 ≤ (rb.write d m).1.id_bounds.1) ∧
    ((rb.write d m).2 ≠ none → (rb.write d m).1.id_bounds = rb.id_bounds) ∧
    (∀ ws : List (List Nat × M), rb.id_bounds.1 ≤ (applyWrites rb ws).id_bounds.1) := by
  refine ⟨write_ok_bounds rb d m, fun h => ?_, fun ws => id_offset_le_applyWrites ws rb⟩
  rw [write_err_unchanged rb d m h]

/-- Witness for C10 at a concrete input: writing two bytes into a fresh
capacity-5 ring succeeds and bumps `id_bounds().max` from 0 to 1. -/
theorem ringBuffer_write_id_bounds_monotone_witness :
    ((RingBuffer.new Unit 5).write [1, 2] ()).1.id_bounds.2 =
      (RingBuffer.new Unit 5).id_bounds.2 + 1 := by
  exact ((ringBuffer_write_id_bounds_monotone (RingBuffer.new Unit 5) [1, 2] ()).1
    (by decide)).1

section WriteSeqIds

variable {M : Type}

theorem writeSeqIds_lower_bound (ws : List (List Nat × M)) (rb : RingBuffer M) :
    ∀ i ∈ writeSeqIds rb ws, rb.id_bounds.2 ≤ i := by
  induction ws generalizing rb with
  | nil => simp [writeSeqIds]
  | cons w rest ih =>
    obtain ⟨d, m⟩ := w
    intro i hi
    by_cases hok : (rb.write d m).2 = none
    · have hmax := (write_ok_bounds rb d m hok).1
      simp only [writeSeqIds, hok] at hi
      rw [List.mem_cons] at hi
      rcases hi with hi | hi
      · omega
      · have := ih (rb.write d m).1 i hi
        omega
    · obtain ⟨e, he⟩ := Option.ne_none_iff_exists'.mp hok
      simp only [writeSeqIds, he] at hi
      have := ih (rb.write d m).1 i hi
      rw [write_err_unchanged rb d m hok] at this
      exact this

theorem writeSeqIds_chain (ws : List (List Nat × M)) (rb : RingBuffer M) :
    List.Chain' (· < ·) (writeSeqIds rb ws) := by
  induction ws generalizing rb with
  | nil => simp [writeSeqIds]
  | cons w rest ih =>
    obtain ⟨d, m⟩ := w
    by_cases hok : (rb.write d m).2 = none
    · have hmax := (write_ok_bounds rb d m hok).1
      simp only [writeSeqIds, hok]
      rw [List.chain'_cons']
      refine ⟨fun y hy => ?_, ih (rb.write d m).1⟩
      have hmem : y ∈ writeSeqIds (rb.write d m).1 rest := by
        cases hrest : writeSeqIds (rb.write d m).1 rest with
        | nil => simp [hrest] at hy
        | cons a t => simp [hrest] at hy; simp [hrest, hy]
      have := writeSeqIds_lower_bound rest (rb.write d m).1 y hmem
      omega
    · obtain ⟨e, he⟩ := Option.ne_none_iff_exists'.mp hok
      simp only [writeSeqIds, he]
      exact ih (rb.write d m).1

end WriteSeqIds

/-- C5: ids are stable and never reused.  The ids assigned by the
successful writes of any sequence from `RingBuffer::new c` form a
strictly increasing list (each new item's id strictly exceeds every
previously assigned id, so no id is ever assigned twice), and evictions
are prefix-only: if the item with id `i` has been evicted (assigned,
i.e. below `id_bounds().max`, yet no longer retrievable), then every
`j ≤ i` is not retrievable either. -/
theorem ringBuffer_ids_stable_never_reused (M : Type) (c : Nat)
    (ws : List (List Nat × M)) :
    List.Chain' (· < ·) (writeSeqIds (RingBuffer.new M c) ws) ∧
    (writeSeqIds (RingBuffer.new M c) ws).Nodup ∧
    (∀ i j : Nat, j ≤ i →
      (applyWrites (RingBuffer.new M c) ws).get i = none →
      i < (applyWrites (RingBuffer.new M c) ws).id_bounds.2 →
      (applyWrites (RingBuffer.new M c) ws).get j = none) := by
  have hchain := writeSeqIds_chain ws (RingBuffer.new M c)
  refine ⟨hchain, ?_, ?_⟩
  · exact ((List.chain'_iff_pairwise).mp hchain).imp fun h => Nat.ne_of_lt h
  · intro i j hji hnone hlt
    set rb := applyWrites (RingBuffer.new M c) ws with hrb
    have hi := get_isSome_iff rb i
    have hj := get_isSome_iff rb j
    have hiNone : ¬ (rb.get i).isSome := by
      rw [hnone]
      simp
    have hmin : i < rb.id_bounds.1 := by
      by_contra hcon
      exact hiNone (hi.mpr ⟨by omega, hlt⟩)
    have : ¬ (rb.get j).isSome := fun hs => by
      have := hj.mp hs
      omega
    exact Option.not_isSome_iff_eq_none.mp this

/-- Witness for C5: in the capacity-10 overwrite scenario (writes of 3,
7 and 3 bytes) id 0 has been evicted, the live window is `[1, 3)`, and
the prefix-only clause instantiated at `i = j = 0` reconfirms
`get 0 = none`. -/
theorem ringBuffer_ids_stable_never_reused_witness :
    (applyWrites (RingBuffer.new Unit 10)
        [([1, 2, 3], ()), ([4, 5, 6, 7, 8, 9, 10], ()), ([1, 2, 3], ())]).get 0 = none := by
  exact (ringBuffer_ids_stable_never_reused Unit 10
    [([1, 2, 3], ()), ([4, 5, 6, 7, 8, 9, 10], ()), ([1, 2, 3], ())]).2.2 0 0
    (le_refl 0) (by decide) (by decide)

/-- C4 (failing input): after the `c4Writes` sequence the live items have
byte ranges `[19,20)`, `[0,2)` and `[0,19)` — the last two overlap — and
`get 2`, whose item was written as `[8, 9]`, now returns bytes of the
later chunk.  The eviction loop stopped at the non-intersecting front
item `[19,20)` and never examined the overlapping item `[0,2)` behind
it. -/
theorem ringBuffer_overlap_failing_input :
    ((applyWrites (RingBuffer.new Unit 20) c4Writes).items.map
        fun it => (it.start_index, it.length)) = [(19, 1), (0, 2), (0, 19)] ∧
    ¬ ((applyWrites (RingBuffer.new Unit 20) c4Writes).items.Pairwise
        fun a b => a.start_index + a.length ≤ b.start_index ∨
          b.start_index + b.length ≤ a.start_index) ∧
    (applyWrites (RingBuffer.new Unit 20) c4Writes).get 2 = some ([2, 2], ()) := by
  refine ⟨by decide, fun hpw => ?_, by decide⟩
  have hitems : (applyWrites (RingBuffer.new Unit 20) c4Writes).items
      = [⟨19, 1, ()⟩, ⟨0, 2, ()⟩, ⟨0, 19, ()⟩] := by decide
  rw [hitems] at hpw
  have := (List.pairwise_cons.mp (List.pairwise_cons.mp hpw).2).1 ⟨0, 19, ()⟩ (by simp)
  simp at this

section SeqWrites

variable {M : Type}

theorem write_ok_buf_length (rb : RingBuffer M) (d : List Nat) (m : M)
    (h : (rb.write d m).2 = none) :
    (rb.write d m).1.buf.length = rb.buf.length := by
  have hle : ¬ d.length > rb.buf.length := by
    intro hgt
    simp [RingBuffer.write, if_pos hgt] at h
  by_cases hr : rb.buf.length - rb.write_head_position < d.length
  · simp only [RingBuffer.write, if_neg hle, if_pos hr]
    simp only [List.length_append, List.length_take, List.length_drop]
    omega
  · simp only [RingBuffer.write, if_neg hle, if_neg hr]
    simp only [List.length_append, List.length_take, List.length_drop]
    omega

theorem evict_front_le (l : List (ItemData M)) (s e : Nat)
    (h : ∀ it, l.head? = some it → it.start_index + it.length ≤ s) :
    evictOverwritten s e l = (l, 0) := by
  cases l with
  | nil => rfl
  | cons it rest =>
    have hle := h it rfl
    simp only [evictOverwritten,
      if_neg (show ¬ (it.start_index < e ∧ it.start_index + it.length > s) from
        fun hc => by omega)]

theorem totalLen_cons (d : List Nat) (m : M) (ws : List (List Nat × M)) :
    totalLen ((d, m) :: ws) = d.length + totalLen ws := by
  simp [totalLen]

theorem totalLen_append_one (ws : List (List Nat × M)) (d : List Nat) (m : M) :
    totalLen (ws ++ [(d, m)]) = totalLen ws + d.length := by
  simp [totalLen]

theorem concatData_cons (d : List Nat) (m : M) (ws : List (List Nat × M)) :
    concatData ((d, m) :: ws) = d ++ concatData ws := by
  simp [concatData]

theorem concatData_append_one (ws : List (List Nat × M)) (d : List Nat) (m : M) :
    concatData (ws ++ [(d, m)]) = concatData ws ++ d := by
  simp [concatData]

theorem concatData_length (ws : List (List Nat × M)) :
    (concatData ws).length = totalLen ws := by
  induction ws with
  | nil => rfl
  | cons w rest ih =>
    obtain ⟨d, m⟩ := w
    simp [concatData_cons, totalLen_cons, ih]

theorem itemsFrom_length (off : Nat) (ws : List (List Nat × M)) :
    (itemsFrom off ws).length = ws.length := by
  induction ws generalizing off with
  | nil => rfl
  | cons w rest ih =>
    obtain ⟨d, m⟩ := w
    simp [itemsFrom, ih]


theorem itemsFrom_append_one (off : Nat) (ws : List (List Nat × M))
    (d : List Nat) (m : M) :
    itemsFrom off (ws ++ [(d, m)])
      = itemsFrom off ws ++ [⟨off + totalLen ws, d.length, m⟩] := by
  induction ws generalizing off with
  | nil => simp [itemsFrom, totalLen]
  | cons w rest ih =>
    obtain ⟨d0, m0⟩ := w
    simp only [List.cons_append, itemsFrom, List.append_eq]
    rw [ih (off + d0.length), totalLen_cons, Nat.add_assoc]

theorem drop_append_length_add (a b : List Nat) (n : Nat) :
    (a ++ b).drop (a.length + n) = b.drop n := by
  induction a with
  | nil => simp
  | cons x t ih =>
    simp only [List.cons_append, List.length_cons, Nat.succ_add, List.drop_succ_cons]
    exact ih

theorem drop_replicate_nat (k n m : Nat) :
    (List.replicate n m).drop k = List.replicate (n - k) m := by
  induction n generalizing k with
  | zero => simp
  | succ n ih =>
    cases k with
    | zero => simp
    | succ k =>
      simp only [List.replicate_succ, List.drop_succ_cons, Nat.succ_sub_succ]
      exact ih k

theorem seqShape_nil (c : Nat) : seqShape M c [] = RingBuffer.new M c := by
  simp [seqShape, RingBuffer.new, concatData, totalLen, itemsFrom]

theorem write_seqShape (c : Nat) (ws : List (List Nat × M)) (d : List Nat) (m : M)
    (h : totalLen ws + d.length ≤ c) :
    (seqShape M c ws).write d m = (seqShape M c (ws ++ [(d, m)]), none) := by
  have hlen : (concatData ws ++ List.replicate (c - totalLen ws) 0).length = c := by
    simp only [List.length_append, concatData_length, List.length_replicate]
    omega
  have hle : ¬ d.length > (concatData ws ++ List.replicate (c - totalLen ws) 0).length := by
    rw [hlen]
    omega
  have hnr : ¬ ((concatData ws ++ List.replicate (c - totalLen ws) 0).length - totalLen ws
      < d.length) := by
    rw [hlen]
    omega
  have hev : evictOverwritten (totalLen ws) (totalLen ws + d.length)
      (itemsFrom 0 ws) = (itemsFrom 0 ws, 0) := by
    refine evict_front_le _ _ _ fun it hit => ?_
    cases ws with
    | nil => simp [itemsFrom] at hit
    | cons w rest =>
      obtain ⟨d0, m0⟩ := w
      simp only [itemsFrom, List.head?_cons, Option.some.injEq] at hit
      subst hit
      simp [totalLen_cons]
  have htake : (concatData ws ++ List.replicate (c - totalLen ws) 0).take (totalLen ws)
      = concatData ws := by
    rw [← concatData_length ws]
    exact List.take_left _ _
  have hdrop : (concatData ws ++ List.replicate (c - totalLen ws) 0).drop
      (totalLen ws + d.length) = List.replicate (c - totalLen ws - d.length) 0 := by
    rw [← concatData_length ws, drop_append_length_add, drop_replicate_nat]
  simp only [RingBuffer.write, seqShape]
  rw [if_neg hle, if_neg hnr, hev, htake, hdrop]
  simp only [Prod.mk.injEq, RingBuffer.mk.injEq]
  refine ⟨⟨?_, ?_, ?_, ?_⟩, trivial⟩
  · rw [concatData_append_one, totalLen_append_one, Nat.sub_sub, List.append_assoc]
  · rw [itemsFrom_append_one]
    simp
  · rw [totalLen_append_one]
  · simp

theorem ringWriteAllE_cons_ok (rb : RingBuffer M) (d : List Nat) (m : M)
    (rest : List (List Nat × M)) (h : (rb.write d m).2 = none) :
    ringWriteAllE rb ((d, m) :: rest) = ringWriteAllE (rb.write d m).1 rest := by
  simp only [ringWriteAllE, h]

theorem ringWriteAllE_cons_err (rb : RingBuffer M) (d : List Nat) (m : M)
    (rest : List (List Nat × M)) (e : WriteDataError) (h : (rb.write d m).2 = some e) :
    ringWriteAllE rb ((d, m) :: rest) = ((rb.write d m).1, some e) := by
  simp only [ringWriteAllE, h]

theorem dumpLoop_cons_ok (buf : List Nat) (it : ItemData M)
    (rest : List (ItemData M)) (rb : RingBuffer M)
    (h : (rb.write ((buf.drop it.start_index).take it.length) it.metadata).2 = none) :
    dumpLoop buf (it :: rest) rb
      = dumpLoop buf rest
          (rb.write ((buf.drop it.start_index).take it.length) it.metadata).1 := by
  simp only [dumpLoop, h]

theorem dumpLoop_cons_err (buf : List Nat) (it : ItemData M)
    (rest : List (ItemData M)) (rb : RingBuffer M) (e : WriteDataError)
    (h : (rb.write ((buf.drop it.start_index).take it.length) it.metadata).2 = some e) :
    dumpLoop buf (it :: rest) rb
      = ((rb.write ((buf.drop it.start_index).take it.length) it.metadata).1, some e) := by
  simp only [dumpLoop, h]

theorem ringWriteAllE_seqShape (c : Nat) (rest done : List (List Nat × M))
    (h : totalLen done + totalLen rest ≤ c) :
    ringWriteAllE (seqShape M c done) rest = (seqShape M c (done ++ rest), none) := by
  induction rest generalizing done with
  | nil => simp [ringWriteAllE]
  | cons w tail ih =>
    obtain ⟨d, m⟩ := w
    rw [totalLen_cons] at h
    have hw := write_seqShape c done d m (by omega)
    have hih := ih (done ++ [(d, m)]) (by rw [totalLen_append_one]; omega)
    have hw2 : ((seqShape M c done).write d m).2 = none := by rw [hw]
    calc ringWriteAllE (seqShape M c done) ((d, m) :: tail)
        = ringWriteAllE ((seqShape M c done).write d m).1 tail :=
          ringWriteAllE_cons_ok _ _ _ _ hw2
      _ = ringWriteAllE (seqShape M c (done ++ [(d, m)])) tail := by rw [hw]
      _ = (seqShape M c ((done ++ [(d, m)]) ++ tail), none) := hih
      _ = (seqShape M c (done ++ (d, m) :: tail), none) := by
          rw [← List.append_cons]

theorem gbWriteAll_general (ws : List (List Nat × M)) (gb : GrowableBuffer M) :
    gbWriteAll gb ws
      = ⟨gb.buf ++ concatData ws, gb.items ++ itemsFrom gb.buf.length ws⟩ := by
  induction ws generalizing gb with
  | nil => simp [gbWriteAll, concatData, itemsFrom]
  | cons w rest ih =>
    obtain ⟨d, m⟩ := w
    simp only [gbWriteAll, ih, GrowableBuffer.write, concatData_cons, itemsFrom,
      List.length_append, List.append_assoc, List.cons_append, List.nil_append,
      GrowableBuffer.mk.injEq, true_and]

theorem dumpLoop_concat (ws : List (List Nat × M)) (pre : List Nat)
    (rb : RingBuffer M) :
    dumpLoop (pre ++ concatData ws) (itemsFrom pre.length ws) rb
      = ringWriteAllE rb ws := by
  induction ws generalizing pre rb with
  | nil => simp [dumpLoop, itemsFrom, ringWriteAllE, concatData]
  | cons w rest ih =>
    obtain ⟨d, m⟩ := w
    have hslice : (((pre ++ concatData ((d, m) :: rest)).drop pre.length).take d.length)
        = d := by
      rw [concatData_cons, List.drop_left]
      exact List.take_left _ _
    rw [show itemsFrom pre.length ((d, m) :: rest)
        = (⟨pre.length, d.length, m⟩ : ItemData M)
            :: itemsFrom (pre.length + d.length) rest from rfl]
    cases hw : (rb.write d m).2 with
    | none =>
      have hok : (rb.write (((pre ++ concatData ((d, m) :: rest)).drop pre.length).take
          d.length) m).2 = none := by
        rw [hslice]
        exact hw
      have hcons := dumpLoop_cons_ok (pre ++ concatData ((d, m) :: rest))
        ⟨pre.length, d.length, m⟩ (itemsFrom (pre.length + d.length) rest) rb hok
      rw [hslice] at hcons
      rw [hcons, ringWriteAllE_cons_ok _ _ _ _ hw]
      have h2 := ih (pre ++ d) (rb.write d m).1
      rw [List.length_append] at h2
      rw [concatData_cons, ← List.append_assoc]
      exact h2
    | some e =>
      have hok : (rb.write (((pre ++ concatData ((d, m) :: rest)).drop pre.length).take
          d.length) m).2 = some e := by
        rw [hslice]
        exact hw
      have hcons := dumpLoop_cons_err (pre ++ concatData ((d, m) :: rest))
        ⟨pre.length, d.length, m⟩ (itemsFrom (pre.length + d.length) rest) rb e hok
      rw [hslice] at hcons
      rw [hcons, ringWriteAllE_cons_err _ _ _ _ e hw]

theorem itemsFrom_getElem (ws : List (List Nat × M)) (off i : Nat)
    (d : List Nat) (m : M) (h : ws[i]? = some (d, m)) :
    (itemsFrom off ws)[i]? = some ⟨off + totalLen (ws.take i), d.length, m⟩ := by
  induction ws generalizing off i with
  | nil => simp at h
  | cons w rest ih =>
    obtain ⟨d0, m0⟩ := w
    cases i with
    | zero =>
      simp only [List.getElem?_cons_zero, Option.some.injEq, Prod.mk.injEq] at h
      obtain ⟨rfl, rfl⟩ := h
      simp [itemsFrom, totalLen]
    | succ i =>
      simp only [List.getElem?_cons_succ] at h
      have h2 := ih (off + d0.length) i h
      simp only [itemsFrom, List.getElem?_cons_succ]
      rw [h2, List.take_succ_cons, totalLen_cons, Nat.add_assoc]

theorem sliceExtract (ws : List (List Nat × M)) (i : Nat) (d : List Nat) (m : M)
    (z : List Nat) (h : ws[i]? = some (d, m)) :
    (((concatData ws ++ z).drop (totalLen (ws.take i))).take d.length) = d := by
  induction ws generalizing i z with
  | nil => simp at h
  | cons w rest ih =>
    obtain ⟨d0, m0⟩ := w
    cases i with
    | zero =>
      simp only [List.getElem?_cons_zero, Option.some.injEq, Prod.mk.injEq] at h
      obtain ⟨rfl, rfl⟩ := h
      simp only [List.take_zero, totalLen, List.map_nil, List.sum_nil, List.drop_zero,
        concatData_cons, List.append_assoc]
      exact List.take_left _ _
    | succ i =>
      simp only [List.getElem?_cons_succ] at h
      rw [List.take_succ_cons, totalLen_cons, concatData_cons, List.append_assoc,
        drop_append_length_add]
      exact ih i z h

theorem seqShape_id_bounds (c : Nat) (ws : List (List Nat × M)) :
    (seqShape M c ws).id_bounds = (0, ws.length) := by
  simp [seqShape, RingBuffer.id_bounds, itemsFrom_length]

theorem seqShape_get (c : Nat) (ws : List (List Nat × M)) (i : Nat)
    (d : List Nat) (m : M) (h : ws[i]? = some (d, m)) :
    (seqShape M c ws).get i = some (d, m) := by
  have hi : i < ws.length := by
    rcases List.getElem?_eq_some.mp h with ⟨hlt, _⟩
    exact hlt
  have hitems := itemsFrom_getElem ws 0 i d m h
  have hslice := sliceExtract ws i d m (List.replicate (c - totalLen ws) 0) h
  simp only [RingBuffer.get, seqShape, itemsFrom_length, Nat.zero_add]
  rw [if_neg (by omega : ¬ (i < 0 ∨ i ≥ ws.length))]
  simp only [Nat.sub_zero, hitems, Option.map_some']
  rw [Option.some.injEq, Prod.mk.injEq]
  exact ⟨by simpa using hslice, rfl⟩

end SeqWrites

/-- C6: dumping a growable stage whose writes together fit in a fresh
ring transfers everything: the dump succeeds, the ring's live window is
exactly the staged items in staging order with their bytes and metadata,
and the stage is left empty. -/
theorem growableBuffer_dump_transfers_stage (M : Type) (c : Nat)
    (ws : List (List Nat × M)) (h : totalLen ws ≤ c) :
    ((gbWriteAll (GrowableBuffer.new M) ws).dump_into_ring_buffer
        (RingBuffer.new M c)).2.2 = none ∧
    ((gbWriteAll (GrowableBuffer.new M) ws).dump_into_ring_buffer
        (RingBuffer.new M c)).1 = GrowableBuffer.new M ∧
    ((gbWriteAll (GrowableBuffer.new M) ws).dump_into_ring_buffer
        (RingBuffer.new M c)).1.len = 0 ∧
    ((gbWriteAll (GrowableBuffer.new M) ws).dump_into_ring_buffer
        (RingBuffer.new M c)).2.1.id_bounds = (0, ws.length) ∧
    (∀ (i : Nat) (d : List Nat) (m : M), ws[i]? = some (d, m) →
      ((gbWriteAll (GrowableBuffer.new M) ws).dump_into_ring_buffer
          (RingBuffer.new M c)).2.1.get i = some (d, m)) := by
  have hgb := gbWriteAll_general ws (GrowableBuffer.new M)
  have hrun : dumpLoop (gbWriteAll (GrowableBuffer.new M) ws).buf
      (gbWriteAll (GrowableBuffer.new M) ws).items (RingBuffer.new M c)
      = (seqShape M c ws, none) := by
    rw [hgb]
    have hd := dumpLoop_concat ws [] (RingBuffer.new M c)
    simp only [List.nil_append, List.length_nil] at hd
    rw [show (GrowableBuffer.new M).buf = [] from rfl,
      show (GrowableBuffer.new M).items = [] from rfl]
    simp only [List.nil_append, List.length_nil]
    rw [hd, ← seqShape_nil c]
    have hfin := ringWriteAllE_seqShape c ws [] (by simpa [totalLen] using h)
    simpa using hfin
  have hdump : (gbWriteAll (GrowableBuffer.new M) ws).dump_into_ring_buffer
      (RingBuffer.new M c) = (⟨[], []⟩, seqShape M c ws, none) := by
    simp only [GrowableBuffer.dump_into_ring_buffer, hrun]
  rw [hdump]
  exact ⟨rfl, rfl, rfl, seqShape_id_bounds c ws,
    fun i d m hi => seqShape_get c ws i d m hi⟩

/-- Witness for C6 at the spec's concrete scenario: staging 8 copies of
`[1,2,3]` and dumping into a capacity-24 ring gives `id_bounds = (0, 8)`
with `get 0 = ([1,2,3], ())`. -/
theorem growableBuffer_dump_transfers_stage_witness :
    ((gbWriteAll (GrowableBuffer.new Unit)
        (List.replicate 8 ([1, 2, 3], ()))).dump_into_ring_buffer
        (RingBuffer.new Unit 24)).2.1.id_bounds = (0, 8) ∧
    ((gbWriteAll (GrowableBuffer.new Unit)
        (List.replicate 8 ([1, 2, 3], ()))).dump_into_ring_buffer
        (RingBuffer.new Unit 24)).2.1.get 0 = some ([1, 2, 3], ()) := by
  have h := growableBuffer_dump_transfers_stage Unit 24
    (List.replicate 8 ([1, 2, 3], ())) (by decide)
  exact ⟨h.2.2.2.1, h.2.2.2.2 0 [1, 2, 3] () (by decide)⟩

section WorkerLemmas

theorem update_skipped (st : RecordWorker) :
    st.update CaptureOutcome.skipped = (Except.ok EncodeStatus.Skipped, st) := rfl

theorem dumpLoop_ok {M : Type} (items : List (ItemData M)) (buf : List Nat)
    (rb : RingBuffer M) (h : ∀ it ∈ items, it.length ≤ rb.buf.length) :
    (dumpLoop buf items rb).2 = none ∧
      (dumpLoop buf items rb).1.buf.length = rb.buf.length := by
  induction items generalizing rb with
  | nil => exact ⟨rfl, rfl⟩
  | cons it rest ih =>
    have hit := h it (by simp)
    have hfit : ((buf.drop it.start_index).take it.length).length ≤ rb.buf.length := by
      simp only [List.length_take]
      omega
    have hok : (rb.write ((buf.drop it.start_index).take it.length) it.metadata).2
        = none := (write_ok_iff _ _ _).mpr hfit
    have hlen := write_ok_buf_length _ _ _ hok
    rw [dumpLoop_cons_ok _ _ _ _ hok]
    have ih2 := ih (rb.write ((buf.drop it.start_index).take it.length) it.metadata).1
      (fun x hx => by rw [hlen]; exact h x (List.mem_cons_of_mem _ hx))
    exact ⟨ih2.1, by rw [ih2.2, hlen]⟩

theorem flush_ok (b : EncodedBuffer)
    (h : ∀ it ∈ b.write_buf.items, it.length ≤ b.ring_buf.buf.length) :
    b.flush.2 = none ∧
      b.flush.1.write_buf = GrowableBuffer.new Metadata ∧
      b.flush.1.ring_buf.buf.length = b.ring_buf.buf.length := by
  have hd := dumpLoop_ok b.write_buf.items b.write_buf.buf b.ring_buf h
  cases hdl : dumpLoop b.write_buf.buf b.write_buf.items b.ring_buf with
  | mk rb2 e2 =>
    rw [hdl] at hd
    have he2 : e2 = none := hd.1
    subst he2
    have hlen2 : rb2.buf.length = b.ring_buf.buf.length := hd.2
    simp only [EncodedBuffer.flush, GrowableBuffer.dump_into_ring_buffer, hdl]
    exact ⟨trivial, rfl, hlen2⟩

theorem write_buf_len_write (b : EncodedBuffer) (d : List Nat) (m : Metadata) :
    (b.write d m).write_buf_len = b.write_buf.items.length + 1 := by
  simp [EncodedBuffer.write_buf_len, GrowableBuffer.len, EncodedBuffer.write,
    GrowableBuffer.write]

theorem update_frame_preBuffered (st : RecordWorker) (chunk : List Nat) (key : Bool)
    (hk : st.buffered_frames ≠ 0)
    (hlt : ¬ st.buffered_frames < stageLen st + 1) :
    st.update (CaptureOutcome.frame chunk key)
      = (Except.ok EncodeStatus.PreBuffered,
         { data_buf := st.data_buf.write chunk ⟨key⟩
           buffered_frames := st.buffered_frames
           encoded_frames := st.encoded_frames + 1 }) := by
  simp only [stageLen] at hlt
  simp only [RecordWorker.update, write_buf_len_write]
  rw [if_neg hk, if_neg hlt]

theorem update_frame_flush (st : RecordWorker) (chunk : List Nat) (key : Bool)
    (hk : st.buffered_frames ≠ 0)
    (hge : st.buffered_frames < stageLen st + 1)
    (hfit : ∀ it ∈ (st.data_buf.write chunk ⟨key⟩).write_buf.items,
      it.length ≤ st.data_buf.ring_buf.buf.length) :
    st.update (CaptureOutcome.frame chunk key)
      = (Except.ok EncodeStatus.Flushed,
         { data_buf := ((st.data_buf.write chunk ⟨key⟩).flush).1
           buffered_frames := st.buffered_frames
           encoded_frames := st.encoded_frames + 1 }) := by
  have hfl := flush_ok (st.data_buf.write chunk ⟨key⟩) hfit
  simp only [stageLen] at hge
  simp only [RecordWorker.update, write_buf_len_write]
  rw [if_neg hk, if_pos hge]
  simp only [hfl.1]

theorem update_frame_zero (st : RecordWorker) (chunk : List Nat) (key : Bool)
    (hk : st.buffered_frames = 0)
    (hstage : st.data_buf.write_buf = GrowableBuffer.new Metadata)
    (hok : (st.data_buf.ring_buf.write chunk ⟨key⟩).2 = none) :
    st.update (CaptureOutcome.frame chunk key)
      = (Except.ok EncodeStatus.Flushed,
         { data_buf := { ring_buf := (st.data_buf.ring_buf.write chunk ⟨key⟩).1
                         write_buf := GrowableBuffer.new Metadata }
           buffered_frames := 0
           encoded_frames := st.encoded_frames + 1 }) := by
  have hflush : st.data_buf.flush
      = (⟨st.data_buf.ring_buf, GrowableBuffer.new Metadata⟩, none) := by
    simp [EncodedBuffer.flush, GrowableBuffer.dump_into_ring_buffer, hstage,
      GrowableBuffer.new, dumpLoop]
  simp only [RecordWorker.update]
  rw [if_pos (show ({ st with encoded_frames := st.encoded_frames + 1
      } : RecordWorker).buffered_frames = 0 from hk)]
  simp only [EncodedBuffer.write_flush,
    show ({ st with encoded_frames := st.encoded_frames + 1
      } : RecordWorker).data_buf = st.data_buf from rfl, hflush, hok, hk]

end WorkerLemmas

theorem update_step (c k : Nat) (st : RecordWorker) (o : CaptureOutcome)
    (hInv : WorkerInv c k st) (hk : 0 < k) (ho : validOutcome c o = true) :
    WorkerInv c k (st.update o).2 ∧
    (((st.update o).1 = Except.ok EncodeStatus.Skipped ∧
        stageLen (st.update o).2 = stageLen st) ∨
     ((st.update o).1 = Except.ok EncodeStatus.PreBuffered ∧
        stageLen (st.update o).2 = stageLen st + 1) ∨
     ((st.update o).1 = Except.ok EncodeStatus.Flushed ∧
        stageLen (st.update o).2 = 0)) := by
  obtain ⟨hbf, hring, hfit, hslen⟩ := hInv
  cases o with
  | skipped =>
    rw [update_skipped]
    exact ⟨⟨hbf, hring, hfit, hslen⟩, Or.inl ⟨rfl, rfl⟩⟩
  | ioError => simp [validOutcome] at ho
  | frame chunk key =>
    have hcle : chunk.length ≤ c := by
      simpa [validOutcome] using ho
    have hk0 : st.buffered_frames ≠ 0 := by omega
    have hwbitems : (st.data_buf.write chunk ⟨key⟩).write_buf.items
        = st.data_buf.write_buf.items
            ++ [⟨st.data_buf.write_buf.buf.length, chunk.length, (⟨key⟩ : Metadata)⟩] :=
      rfl
    by_cases hc : st.buffered_frames < stageLen st + 1
    · have hfit2 : ∀ it ∈ (st.data_buf.write chunk ⟨key⟩).write_buf.items,
          it.length ≤ st.data_buf.ring_buf.buf.length := by
        intro it hit
        rw [hwbitems, List.mem_append] at hit
        rcases hit with hit | hit
        · rw [hring]
          exact hfit it hit
        · simp only [List.mem_singleton] at hit
          subst hit
          rw [hring]
          exact hcle
      rw [update_frame_flush st chunk key hk0 hc hfit2]
      have hfl := flush_ok (st.data_buf.write chunk ⟨key⟩) hfit2
      refine ⟨⟨hbf, ?_, ?_, ?_⟩, Or.inr (Or.inr ⟨rfl, ?_⟩)⟩
      · show ((st.data_buf.write chunk ⟨key⟩).flush).1.ring_buf.buf.length = c
        rw [hfl.2.2]
        exact hring
      · show ∀ it ∈ ((st.data_buf.write chunk ⟨key⟩).flush).1.write_buf.items,
          it.length ≤ c
        rw [hfl.2.1]
        intro it hit
        simp [GrowableBuffer.new] at hit
      · show ((st.data_buf.write chunk ⟨key⟩).flush).1.write_buf.items.length ≤ k
        rw [hfl.2.1]
        simp [GrowableBuffer.new]
      · show ((st.data_buf.write chunk ⟨key⟩).flush).1.write_buf.items.length = 0
        rw [hfl.2.1]
        rfl
    · rw [update_frame_preBuffered st chunk key hk0 hc]
      have hlen2 : (st.data_buf.write chunk ⟨key⟩).write_buf.items.length
          = st.data_buf.write_buf.items.length + 1 := by
        rw [hwbitems]
        simp
      refine ⟨⟨hbf, hring, ?_, ?_⟩, Or.inr (Or.inl ⟨rfl, ?_⟩)⟩
      · intro it hit
        rw [hwbitems, List.mem_append] at hit
        rcases hit with hit | hit
        · exact hfit it hit
        · simp only [List.mem_singleton] at hit
          subst hit
          exact hcle
      · show (st.data_buf.write chunk ⟨key⟩).write_buf.items.length ≤ k
        rw [hlen2]
        simp only [stageLen] at hc
        omega
      · show (st.data_buf.write chunk ⟨key⟩).write_buf.items.length = stageLen st + 1
        rw [hlen2]
        rfl

theorem runWorker_cons (st : RecordWorker) (o : CaptureOutcome)
    (rest : List CaptureOutcome) :
    runWorker st (o :: rest)
      = ((st.update o).1 :: (runWorker (st.update o).2 rest).1,
         (runWorker (st.update o).2 rest).2) := rfl

theorem runWorker_count_flushFree (c k : Nat) (hk : 0 < k) :
    ∀ (outs : List CaptureOutcome) (st : RecordWorker), WorkerInv c k st →
      (∀ o ∈ outs, validOutcome c o = true) →
      ∀ (l t2 : List (Except RecordError EncodeStatus)),
        (runWorker st outs).1 = l ++ t2 →
        Except.ok EncodeStatus.Flushed ∉ l →
        stageLen st + l.count (Except.ok EncodeStatus.PreBuffered) ≤ k := by
  intro outs
  induction outs with
  | nil =>
    intro st hInv hv l t2 hsplit hnF
    have h0 : l ++ t2 = [] := by rw [← hsplit]; rfl
    have hl : l = [] := (List.append_eq_nil.mp h0).1
    subst hl
    simpa [stageLen] using hInv.2.2.2
  | cons o rest ih =>
    intro st hInv hv l t2 hsplit hnF
    have hstep := update_step c k st o hInv hk (hv o (by simp))
    rw [runWorker_cons] at hsplit
    cases l with
    | nil => simpa [stageLen] using hInv.2.2.2
    | cons s0 l2 =>
      rw [List.cons_append] at hsplit
      have hs0 : (st.update o).1 = s0 := (List.cons.injEq .. ▸ hsplit).1
      have htail : (runWorker (st.update o).2 rest).1 = l2 ++ t2 :=
        (List.cons.injEq .. ▸ hsplit).2
      have hv2 : ∀ x ∈ rest, validOutcome c x = true := fun x hx => hv x (by simp [hx])
      have hnF2 : Except.ok EncodeStatus.Flushed ∉ l2 := fun hm => hnF (by simp [hm])
      rcases hstep.2 with ⟨hst, heq⟩ | ⟨hst, heq⟩ | ⟨hst, heq⟩
      · have hcount : (s0 :: l2).count (Except.ok EncodeStatus.PreBuffered)
            = l2.count (Except.ok EncodeStatus.PreBuffered) := by
          rw [← hs0, hst]
          simp [List.count_cons]
        rw [hcount]
        have := ih (st.update o).2 hstep.1 hv2 l2 t2 htail hnF2
        omega
      · have hcount : (s0 :: l2).count (Except.ok EncodeStatus.PreBuffered)
            = l2.count (Except.ok EncodeStatus.PreBuffered) + 1 := by
          rw [← hs0, hst]
          simp [List.count_cons]
        rw [hcount]
        have := ih (st.update o).2 hstep.1 hv2 l2 t2 htail hnF2
        omega
      · have hs : s0 = Except.ok EncodeStatus.Flushed := by rw [← hs0, hst]
        exact absurd (show Except.ok EncodeStatus.Flushed ∈ s0 :: l2 by
          rw [hs]
          exact List.mem_cons_self _ _) hnF

theorem runWorker_count_infix (c k : Nat) (hk : 0 < k) :
    ∀ (outs : List CaptureOutcome) (st : RecordWorker), WorkerInv c k st →
      (∀ o ∈ outs, validOutcome c o = true) →
      ∀ (t1 l t2 : List (Except RecordError EncodeStatus)),
        (runWorker st outs).1 = t1 ++ (l ++ t2) →
        Except.ok EncodeStatus.Flushed ∉ l →
        l.count (Except.ok EncodeStatus.PreBuffered) ≤ k := by
  intro outs
  induction outs with
  | nil =>
    intro st hInv hv t1 l t2 hsplit hnF
    have h0 : t1 ++ (l ++ t2) = [] := by rw [← hsplit]; rfl
    have hl : l = [] := (List.append_eq_nil.mp (List.append_eq_nil.mp h0).2).1
    subst hl
    simp
  | cons o rest ih =>
    intro st hInv hv t1 l t2 hsplit hnF
    have hstep := update_step c k st o hInv hk (hv o (by simp))
    have hv2 : ∀ x ∈ rest, validOutcome c x = true := fun x hx => hv x (by simp [hx])
    cases t1 with
    | nil =>
      have := runWorker_count_flushFree c k hk (o :: rest) st hInv hv l t2
        (by simpa using hsplit) hnF
      omega
    | cons x t1b =>
      rw [runWorker_cons, List.cons_append] at hsplit
      have htail : (runWorker (st.update o).2 rest).1 = t1b ++ (l ++ t2) :=
        (List.cons.injEq .. ▸ hsplit).2
      exact ih (st.update o).2 hstep.1 hv2 t1b l t2 htail hnF

/-- C7: with `buffered_frames = k > 0` and every encoded chunk fitting
in the ring, any contiguous stretch of worker statuses that contains no
`Flushed` holds at most `k` occurrences of `PreBuffered` — a run of
non-skipped iterations never yields more than `k` `PreBuffered` results
without a `Flushed` among them. -/
theorem encodeStatus_preBuffered_run_bounded (c k : Nat)
    (outs : List CaptureOutcome)
    (t1 l t2 : List (Except RecordError EncodeStatus)) (hk : 0 < k)
    (hv : ∀ o ∈ outs, validOutcome c o = true)
    (hsplit : (runWorker (RecordWorker.init c k) outs).1 = t1 ++ (l ++ t2))
    (hnF : Except.ok EncodeStatus.Flushed ∉ l) :
    l.count (Except.ok EncodeStatus.PreBuffered) ≤ k := by
  have hInv : WorkerInv c k (RecordWorker.init c k) := by
    refine ⟨rfl, ?_, ?_, ?_⟩
    · simp [RecordWorker.init, EncodedBuffer.new, RingBuffer.new]
    · intro it hit
      simp [RecordWorker.init, EncodedBuffer.new, GrowableBuffer.new] at hit
    · simp [RecordWorker.init, EncodedBuffer.new, GrowableBuffer.new]
  exact runWorker_count_infix c k hk outs (RecordWorker.init c k) hInv hv t1 l t2
    hsplit hnF

/-- Witness for C7: with `k = 1` and two fitting frames the statuses are
`[PreBuffered, Flushed]`, and the `Flushed`-free stretch
`[PreBuffered]` counts one `PreBuffered`, within the bound. -/
theorem encodeStatus_preBuffered_run_bounded_witness :
    ([Except.ok EncodeStatus.PreBuffered] :
        List (Except RecordError EncodeStatus)).count
      (Except.ok EncodeStatus.PreBuffered) ≤ 1 :=
  encodeStatus_preBuffered_run_bounded 10 1
    [CaptureOutcome.frame [1] true, CaptureOutcome.frame [2] true]
    [] [Except.ok EncodeStatus.PreBuffered] [Except.ok EncodeStatus.Flushed]
    (by decide) (by decide) (by decide) (by decide)

/-- C9: a `Skipped` frame read (which is what the grab primitive's
`WouldBlock` becomes under `From<io::Error> for FrameError`) makes the
worker iteration return `Skipped` and change nothing: the returned state
is the input state itself — same staging buffer, same ring buffer (no
ring growth), same `encoded_frames` count (the encoder is not invoked,
so no presentation timestamp is produced).  The third conjunct shows a
skip anywhere in a run contributes exactly one `Skipped` status and
threads the state through untouched. -/
theorem record_update_skipped_passthrough :
    FrameError.ofIoErrorKind IoErrorKind.WouldBlock = FrameError.Skipped ∧
    (∀ st : RecordWorker,
      st.update CaptureOutcome.skipped = (Except.ok EncodeStatus.Skipped, st)) ∧
    (∀ (st : RecordWorker) (pre post : List CaptureOutcome),
      runWorker st (pre ++ CaptureOutcome.skipped :: post)
        = ((runWorker st pre).1
             ++ Except.ok EncodeStatus.Skipped :: (runWorker (runWorker st pre).2 post).1,
           (runWorker (runWorker st pre).2 post).2)) := by
  refine ⟨rfl, fun st => rfl, fun st pre post => ?_⟩
  induction pre generalizing st with
  | nil => rfl
  | cons o rest ih =>
    rw [List.cons_append, runWorker_cons, ih ((st.update o).2), runWorker_cons]
    simp [List.cons_append]

/-- C8: with `buffered_frames = 0` every non-skipped iteration whose
result is `ok` yields `Flushed` (the residual stage is flushed and the
chunk written straight into the ring), and three successful encode
iterations on a fresh recorder whose chunks fit together in the ring
produce three `Flushed` statuses and three ring items in encode
order. -/
theorem encodeStatus_zero_buffering_flushes :
    (∀ (st : RecordWorker) (chunk : List Nat) (key : Bool) (s : EncodeStatus),
      st.buffered_frames = 0 →
      (st.update (CaptureOutcome.frame chunk key)).1 = Except.ok s →
      s = EncodeStatus.Flushed) ∧
    (∀ (c : Nat) (ch1 ch2 ch3 : List Nat) (k1 k2 k3 : Bool),
      ch1.length + ch2.length + ch3.length ≤ c →
      (runWorker (RecordWorker.init c 0)
          [CaptureOutcome.frame ch1 k1, CaptureOutcome.frame ch2 k2,
           CaptureOutcome.frame ch3 k3]).1
        = [Except.ok EncodeStatus.Flushed, Except.ok EncodeStatus.Flushed,
           Except.ok EncodeStatus.Flushed] ∧
      (runWorker (RecordWorker.init c 0)
          [CaptureOutcome.frame ch1 k1, CaptureOutcome.frame ch2 k2,
           CaptureOutcome.frame ch3 k3]).2.data_buf.ring_buf.len = 3 ∧
      (runWorker (RecordWorker.init c 0)
          [CaptureOutcome.frame ch1 k1, CaptureOutcome.frame ch2 k2,
           CaptureOutcome.frame ch3 k3]).2.data_buf.ring_buf.get 0
        = some (ch1, ⟨k1⟩) ∧
      (runWorker (RecordWorker.init c 0)
          [CaptureOutcome.frame ch1 k1, CaptureOutcome.frame ch2 k2,
           CaptureOutcome.frame ch3 k3]).2.data_buf.ring_buf.get 1
        = some (ch2, ⟨k2⟩) ∧
      (runWorker (RecordWorker.init c 0)
          [CaptureOutcome.frame ch1 k1, CaptureOutcome.frame ch2 k2,
           CaptureOutcome.frame ch3 k3]).2.data_buf.ring_buf.get 2
        = some (ch3, ⟨k3⟩)) := by
  constructor
  · intro st chunk key s hk h
    simp only [RecordWorker.update] at h
    rw [if_pos hk] at h
    cases hw : (st.data_buf.write_flush chunk ⟨key⟩).2 with
    | none =>
      rw [hw] at h
      simp only [Except.ok.injEq] at h
      exact h.symm
    | some e =>
      rw [hw] at h
      simp at h
  · intro c ch1 ch2 ch3 k1 k2 k3 h
    have hw1 := write_seqShape (M := Metadata) c [] ch1 ⟨k1⟩
      (by simp [totalLen]; omega)
    have hw2 := write_seqShape (M := Metadata) c [(ch1, ⟨k1⟩)] ch2 ⟨k2⟩
      (by simp [totalLen]; omega)
    have hw3 := write_seqShape (M := Metadata) c [(ch1, ⟨k1⟩), (ch2, ⟨k2⟩)] ch3 ⟨k3⟩
      (by simp [totalLen]; omega)
    simp only [List.nil_append, List.cons_append] at hw1 hw2 hw3
    have hok1 : ((RecordWorker.init c 0).data_buf.ring_buf.write ch1
        (⟨k1⟩ : Metadata)).2 = none := by
      rw [show (RecordWorker.init c 0).data_buf.ring_buf
          = RingBuffer.new Metadata c from rfl, ← seqShape_nil (M := Metadata) c, hw1]
    have e1 : (RecordWorker.init c 0).update (CaptureOutcome.frame ch1 k1)
        = (Except.ok EncodeStatus.Flushed,
           ⟨⟨seqShape Metadata c [(ch1, ⟨k1⟩)], GrowableBuffer.new Metadata⟩, 0, 1⟩) := by
      rw [update_frame_zero (RecordWorker.init c 0) ch1 k1 rfl rfl hok1]
      rw [show (RecordWorker.init c 0).data_buf.ring_buf
          = RingBuffer.new Metadata c from rfl, ← seqShape_nil (M := Metadata) c, hw1]
      rfl
    have hok2 : ((⟨⟨seqShape Metadata c [(ch1, ⟨k1⟩)], GrowableBuffer.new Metadata⟩, 0, 1⟩
        : RecordWorker).data_buf.ring_buf.write ch2 (⟨k2⟩ : Metadata)).2 = none := by
      rw [show (⟨⟨seqShape Metadata c [(ch1, ⟨k1⟩)], GrowableBuffer.new Metadata⟩, 0, 1⟩
          : RecordWorker).data_buf.ring_buf = seqShape Metadata c [(ch1, ⟨k1⟩)] from rfl,
        hw2]
    have e2 : (⟨⟨seqShape Metadata c [(ch1, ⟨k1⟩)], GrowableBuffer.new Metadata⟩, 0, 1⟩
          : RecordWorker).update (CaptureOutcome.frame ch2 k2)
        = (Except.ok EncodeStatus.Flushed,
           ⟨⟨seqShape Metadata c [(ch1, ⟨k1⟩), (ch2, ⟨k2⟩)],
             GrowableBuffer.new Metadata⟩, 0, 2⟩) := by
      rw [update_frame_zero
        (⟨⟨seqShape Metadata c [(ch1, ⟨k1⟩)], GrowableBuffer.new Metadata⟩, 0, 1⟩
          : RecordWorker) ch2 k2 rfl rfl hok2]
      rw [show (⟨⟨seqShape Metadata c [(ch1, ⟨k1⟩)], GrowableBuffer.new Metadata⟩, 0, 1⟩
          : RecordWorker).data_buf.ring_buf = seqShape Metadata c [(ch1, ⟨k1⟩)] from rfl,
        hw2]
    have hok3 : ((⟨⟨seqShape Metadata c [(ch1, ⟨k1⟩), (ch2, ⟨k2⟩)],
          GrowableBuffer.new Metadata⟩, 0, 2⟩
        : RecordWorker).data_buf.ring_buf.write ch3 (⟨k3⟩ : Metadata)).2 = none := by
      rw [show (⟨⟨seqShape Metadata c [(ch1, ⟨k1⟩), (ch2, ⟨k2⟩)],
            GrowableBuffer.new Metadata⟩, 0, 2⟩
          : RecordWorker).data_buf.ring_buf
          = seqShape Metadata c [(ch1, ⟨k1⟩), (ch2, ⟨k2⟩)] from rfl, hw3]
    have e3 : (⟨⟨seqShape Metadata c [(ch1, ⟨k1⟩), (ch2, ⟨k2⟩)],
            GrowableBuffer.new Metadata⟩, 0, 2⟩
          : RecordWorker).update (CaptureOutcome.frame ch3 k3)
        = (Except.ok EncodeStatus.Flushed,
           ⟨⟨seqShape Metadata c [(ch1, ⟨k1⟩), (ch2, ⟨k2⟩), (ch3, ⟨k3⟩)],
             GrowableBuffer.new Metadata⟩, 0, 3⟩) := by
      rw [update_frame_zero
        (⟨⟨seqShape Metadata c [(ch1, ⟨k1⟩), (ch2, ⟨k2⟩)],
            GrowableBuffer.new Metadata⟩, 0, 2⟩
          : RecordWorker) ch3 k3 rfl rfl hok3]
      rw [show (⟨⟨seqShape Metadata c [(ch1, ⟨k1⟩), (ch2, ⟨k2⟩)],
            GrowableBuffer.new Metadata⟩, 0, 2⟩
          : RecordWorker).data_buf.ring_buf
          = seqShape Metadata c [(ch1, ⟨k1⟩), (ch2, ⟨k2⟩)] from rfl, hw3]
    have hrun : runWorker (RecordWorker.init c 0)
        [CaptureOutcome.frame ch1 k1, CaptureOutcome.frame ch2 k2,
         CaptureOutcome.frame ch3 k3]
        = ([Except.ok EncodeStatus.Flushed, Except.ok EncodeStatus.Flushed,
            Except.ok EncodeStatus.Flushed],
           ⟨⟨seqShape Metadata c [(ch1, ⟨k1⟩), (ch2, ⟨k2⟩), (ch3, ⟨k3⟩)],
             GrowableBuffer.new Metadata⟩, 0, 3⟩) := by
      simp only [runWorker, e1, e2, e3]
    rw [hrun]
    refine ⟨rfl, ?_, ?_, ?_, ?_⟩
    · simp [RingBuffer.len, seqShape, itemsFrom_length]
    · exact seqShape_get c _ 0 ch1 (⟨k1⟩ : Metadata) rfl
    · exact seqShape_get c _ 1 ch2 (⟨k2⟩ : Metadata) rfl
    · exact seqShape_get c _ 2 ch3 (⟨k3⟩ : Metadata) rfl

/-- Witness for C8: a concrete zero-buffering run (capacity 9, chunks
`[1]`, `[2]`, `[3]`) yields three `Flushed` statuses, and the
single-iteration clause instantiated concretely confirms `Flushed`. -/
theorem encodeStatus_zero_buffering_flushes_witness :
    (runWorker (RecordWorker.init 9 0)
        [CaptureOutcome.frame [1] true, CaptureOutcome.frame [2] false,
         CaptureOutcome.frame [3] false]).1
      = [Except.ok EncodeStatus.Flushed, Except.ok EncodeStatus.Flushed,
         Except.ok EncodeStatus.Flushed] ∧
    EncodeStatus.Flushed = EncodeStatus.Flushed := by
  refine ⟨(encodeStatus_zero_buffering_flushes.2 9 [1] [2] [3] true false false
    (by decide)).1, ?_⟩
  exact encodeStatus_zero_buffering_flushes.1 (RecordWorker.init 9 0) [1] true
    EncodeStatus.Flushed rfl (by decide)

/-- C1 (counterexample): with `buffered_frames = 2` and capacity 12, four
successful encode iterations yield the statuses
`PreBuffered, PreBuffered, Flushed, PreBuffered` — not
`PreBuffered, PreBuffered, PreBuffered, Flushed` as the claim states.
The code appends the chunk first and dumps as soon as the stage length
after the append exceeds `buffered_frames`, so the dump fires in the
third iteration (3 > 2), not the fourth. -/
theorem encodeStatus_buffered_two_claim_counterexample :
    (runWorker (RecordWorker.init 12 2) c1Outcomes).1
      = [Except.ok EncodeStatus.PreBuffered, Except.ok EncodeStatus.PreBuffered,
         Except.ok EncodeStatus.Flushed, Except.ok EncodeStatus.PreBuffered] ∧
    ¬ (runWorker (RecordWorker.init 12 2) c1Outcomes).1
      = [Except.ok EncodeStatus.PreBuffered, Except.ok EncodeStatus.PreBuffered,
         Except.ok EncodeStatus.PreBuffered, Except.ok EncodeStatus.Flushed] := by
  exact ⟨by decide, by decide⟩

/-- C1 (amended): with `buffered_frames = 2`, four consecutive successful
(non-skipped) encoder-worker iterations whose first three chunks fit in
the ring emit the statuses `PreBuffered, PreBuffered, Flushed,
PreBuffered`: the stage length after appending is 1, 2, 3, and the third
iteration triggers the dump because 3 > 2, leaving the stage holding one
chunk after the fourth iteration. -/
theorem encodeStatus_buffered_two_sequence (cap : Nat) (c1 c2 c3 c4 : List Nat)
    (k1 k2 k3 k4 : Bool) (h1 : c1.length ≤ cap) (h2 : c2.length ≤ cap)
    (h3 : c3.length ≤ cap) :
    (runWorker (RecordWorker.init cap 2)
        [CaptureOutcome.frame c1 k1, CaptureOutcome.frame c2 k2,
         CaptureOutcome.frame c3 k3, CaptureOutcome.frame c4 k4]).1
      = [Except.ok EncodeStatus.PreBuffered, Except.ok EncodeStatus.PreBuffered,
         Except.ok EncodeStatus.Flushed, Except.ok EncodeStatus.PreBuffered] ∧
    stageLen (runWorker (RecordWorker.init cap 2)
        [CaptureOutcome.frame c1 k1, CaptureOutcome.frame c2 k2,
         CaptureOutcome.frame c3 k3, CaptureOutcome.frame c4 k4]).2 = 1 := by
  have e1 : (⟨⟨RingBuffer.new Metadata cap, GrowableBuffer.new Metadata⟩, 2, 0⟩
        : RecordWorker).update (CaptureOutcome.frame c1 k1)
      = (Except.ok EncodeStatus.PreBuffered,
         ⟨⟨RingBuffer.new Metadata cap,
           (GrowableBuffer.new Metadata).write c1 (⟨k1⟩ : Metadata)⟩, 2, 1⟩) := by
    rw [update_frame_preBuffered
      (⟨⟨RingBuffer.new Metadata cap, GrowableBuffer.new Metadata⟩, 2, 0⟩
        : RecordWorker) c1 k1 (by simp) (by simp [stageLen, GrowableBuffer.new])]
    rfl
  have e2 : (⟨⟨RingBuffer.new Metadata cap,
        (GrowableBuffer.new Metadata).write c1 (⟨k1⟩ : Metadata)⟩, 2, 1⟩
        : RecordWorker).update (CaptureOutcome.frame c2 k2)
      = (Except.ok EncodeStatus.PreBuffered,
         ⟨⟨RingBuffer.new Metadata cap,
           ((GrowableBuffer.new Metadata).write c1 (⟨k1⟩ : Metadata)).write c2
             (⟨k2⟩ : Metadata)⟩, 2, 2⟩) := by
    rw [update_frame_preBuffered
      (⟨⟨RingBuffer.new Metadata cap,
        (GrowableBuffer.new Metadata).write c1 (⟨k1⟩ : Metadata)⟩, 2, 1⟩
        : RecordWorker) c2 k2 (by simp)
      (by simp [stageLen, GrowableBuffer.new, GrowableBuffer.write])]
    rfl
  have hfit : ∀ it ∈ ((⟨⟨RingBuffer.new Metadata cap,
        ((GrowableBuffer.new Metadata).write c1 (⟨k1⟩ : Metadata)).write c2
          (⟨k2⟩ : Metadata)⟩, 2, 2⟩
        : RecordWorker).data_buf.write c3 (⟨k3⟩ : Metadata)).write_buf.items,
      it.length ≤ (⟨⟨RingBuffer.new Metadata cap,
        ((GrowableBuffer.new Metadata).write c1 (⟨k1⟩ : Metadata)).write c2
          (⟨k2⟩ : Metadata)⟩, 2, 2⟩
        : RecordWorker).data_buf.ring_buf.buf.length := by
    intro it hit
    simp only [EncodedBuffer.write, GrowableBuffer.write, GrowableBuffer.new,
      List.nil_append, List.singleton_append, List.cons_append, List.mem_cons,
      List.mem_singleton, List.not_mem_nil, or_false] at hit
    rcases hit with rfl | rfl | rfl
    · simpa [RingBuffer.new] using h1
    · simpa [RingBuffer.new] using h2
    · simpa [RingBuffer.new] using h3
  have hfl := flush_ok ((⟨RingBuffer.new Metadata cap,
      ((GrowableBuffer.new Metadata).write c1 (⟨k1⟩ : Metadata)).write c2
        (⟨k2⟩ : Metadata)⟩ : EncodedBuffer).write c3 (⟨k3⟩ : Metadata)) hfit
  have e3 : (⟨⟨RingBuffer.new Metadata cap,
        ((GrowableBuffer.new Metadata).write c1 (⟨k1⟩ : Metadata)).write c2
          (⟨k2⟩ : Metadata)⟩, 2, 2⟩
        : RecordWorker).update (CaptureOutcome.frame c3 k3)
      = (Except.ok EncodeStatus.Flushed,
         ⟨((⟨RingBuffer.new Metadata cap,
             ((GrowableBuffer.new Metadata).write c1 (⟨k1⟩ : Metadata)).write c2
               (⟨k2⟩ : Metadata)⟩ : EncodedBuffer).write c3
             (⟨k3⟩ : Metadata)).flush.1, 2, 3⟩) := by
    rw [update_frame_flush
      (⟨⟨RingBuffer.new Metadata cap,
        ((GrowableBuffer.new Metadata).write c1 (⟨k1⟩ : Metadata)).write c2
          (⟨k2⟩ : Metadata)⟩, 2, 2⟩
        : RecordWorker) c3 k3 (by simp)
      (by simp [stageLen, GrowableBuffer.new, GrowableBuffer.write]) hfit]
  have hstage3 : stageLen (⟨((⟨RingBuffer.new Metadata cap,
        ((GrowableBuffer.new Metadata).write c1 (⟨k1⟩ : Metadata)).write c2
          (⟨k2⟩ : Metadata)⟩ : EncodedBuffer).write c3
        (⟨k3⟩ : Metadata)).flush.1, 2, 3⟩ : RecordWorker) = 0 := by
    show ((⟨RingBuffer.new Metadata cap,
        ((GrowableBuffer.new Metadata).write c1 (⟨k1⟩ : Metadata)).write c2
          (⟨k2⟩ : Metadata)⟩ : EncodedBuffer).write c3
        (⟨k3⟩ : Metadata)).flush.1.write_buf.items.length = 0
    rw [hfl.2.1]
    rfl
  have e4 : (⟨((⟨RingBuffer.new Metadata cap,
        ((GrowableBuffer.new Metadata).write c1 (⟨k1⟩ : Metadata)).write c2
          (⟨k2⟩ : Metadata)⟩ : EncodedBuffer).write c3
        (⟨k3⟩ : Metadata)).flush.1, 2, 3⟩
        : RecordWorker).update (CaptureOutcome.frame c4 k4)
      = (Except.ok EncodeStatus.PreBuffered,
         ⟨((⟨RingBuffer.new Metadata cap,
             ((GrowableBuffer.new Metadata).write c1 (⟨k1⟩ : Metadata)).write c2
               (⟨k2⟩ : Metadata)⟩ : EncodedBuffer).write c3
             (⟨k3⟩ : Metadata)).flush.1.write c4 (⟨k4⟩ : Metadata), 2, 4⟩) := by
    rw [update_frame_preBuffered
      (⟨((⟨RingBuffer.new Metadata cap,
        ((GrowableBuffer.new Metadata).write c1 (⟨k1⟩ : Metadata)).write c2
          (⟨k2⟩ : Metadata)⟩ : EncodedBuffer).write c3
        (⟨k3⟩ : Metadata)).flush.1, 2, 3⟩
        : RecordWorker) c4 k4 (by simp) (by rw [show stageLen (⟨((⟨RingBuffer.new Metadata cap,
        ((GrowableBuffer.new Metadata).write c1 (⟨k1⟩ : Metadata)).write c2
          (⟨k2⟩ : Metadata)⟩ : EncodedBuffer).write c3
        (⟨k3⟩ : Metadata)).flush.1, 2, 3⟩ : RecordWorker) = 0 from hstage3]; simp)]
  have hrun : runWorker (RecordWorker.init cap 2)
      [CaptureOutcome.frame c1 k1, CaptureOutcome.frame c2 k2,
       CaptureOutcome.frame c3 k3, CaptureOutcome.frame c4 k4]
      = ([Except.ok EncodeStatus.PreBuffered, Except.ok EncodeStatus.PreBuffered,
          Except.ok EncodeStatus.Flushed, Except.ok EncodeStatus.PreBuffered],
         ⟨((⟨RingBuffer.new Metadata cap,
             ((GrowableBuffer.new Metadata).write c1 (⟨k1⟩ : Metadata)).write c2
               (⟨k2⟩ : Metadata)⟩ : EncodedBuffer).write c3
             (⟨k3⟩ : Metadata)).flush.1.write c4 (⟨k4⟩ : Metadata), 2, 4⟩) := by
    rw [show RecordWorker.init cap 2
        = (⟨⟨RingBuffer.new Metadata cap, GrowableBuffer.new Metadata⟩, 2, 0⟩
          : RecordWorker) from rfl]
    simp only [runWorker, e1, e2, e3, e4]
  rw [hrun]
  refine ⟨rfl, ?_⟩
  show ((((⟨RingBuffer.new Metadata cap,
      ((GrowableBuffer.new Metadata).write c1 (⟨k1⟩ : Metadata)).write c2
        (⟨k2⟩ : Metadata)⟩ : EncodedBuffer).write c3
      (⟨k3⟩ : Metadata)).flush.1.write c4 (⟨k4⟩ : Metadata)).write_buf.items).length = 1
  rw [show ((((⟨RingBuffer.new Metadata cap,
      ((GrowableBuffer.new Metadata).write c1 (⟨k1⟩ : Metadata)).write c2
        (⟨k2⟩ : Metadata)⟩ : EncodedBuffer).write c3
      (⟨k3⟩ : Metadata)).flush.1.write c4 (⟨k4⟩ : Metadata)).write_buf.items)
      = ((⟨RingBuffer.new Metadata cap,
      ((GrowableBuffer.new Metadata).write c1 (⟨k1⟩ : Metadata)).write c2
        (⟨k2⟩ : Metadata)⟩ : EncodedBuffer).write c3
      (⟨k3⟩ : Metadata)).flush.1.write_buf.items
        ++ [⟨((⟨RingBuffer.new Metadata cap,
      ((GrowableBuffer.new Metadata).write c1 (⟨k1⟩ : Metadata)).write c2
        (⟨k2⟩ : Metadata)⟩ : EncodedBuffer).write c3
      (⟨k3⟩ : Metadata)).flush.1.write_buf.buf.length, c4.length,
          (⟨k4⟩ : Metadata)⟩] from rfl, hfl.2.1]
  rfl

/-- Witness for the amended C1 at the concrete scenario: capacity 12,
four 3-byte chunks, statuses `PreBuffered, PreBuffered, Flushed,
PreBuffered`. -/
theorem encodeStatus_buffered_two_sequence_witness :
    (runWorker (RecordWorker.init 12 2)
        [CaptureOutcome.frame [1, 2, 3] true, CaptureOutcome.frame [4, 5, 6] false,
         CaptureOutcome.frame [7, 8, 9] false,
         CaptureOutcome.frame [10, 11, 12] false]).1
      = [Except.ok EncodeStatus.PreBuffered, Except.ok EncodeStatus.PreBuffered,
         Except.ok EncodeStatus.Flushed, Except.ok EncodeStatus.PreBuffered] :=
  (encodeStatus_buffered_two_sequence 12 [1, 2, 3] [4, 5, 6] [7, 8, 9] [10, 11, 12]
    true false false false (by decide) (by decide) (by decide)).1

end Transscreen
